import Mathlib

/-!
Verification development for the AllProperly property-management core:
the permission-resolution rules of `PropertyService.ts` / `TaskService.ts`,
the task lifecycle (complete / skip / reopen / delete), the recurrence
expansion of `createRecurringTask` / `completeAndCreateNext`, and the
relationship bookkeeping of `UserService.ts`.  Records are embedded as Lean
structures, the Firestore document store as explicit lists inside a `DB`
state, `serverTimestamp()` as an explicit `now` argument, thrown exceptions
as `Except Err`, and JavaScript `Date` values (at day granularity, which is
all the services compare) as proleptic-Gregorian calendar triples with the
standard civil-from-days / days-from-civil conversions, so that
`setMonth` / `setFullYear` / `setDate` rollover is modelled exactly.
-/

namespace AllProperly

/-! ## Calendar dates (JS `Date`, date component) -/

/-- Days since 1970-01-01 of the civil date `(y, m, d)` with `m` in 1..12,
via the standard era decomposition (floor division throughout). -/
def daysFromCivil (y m d : Int) : Int :=
  let yAdj : Int := if m ≤ 2 then y - 1 else y
  let era : Int := Int.fdiv yAdj 400
  let yoe : Int := yAdj - era * 400
  let mp : Int := if m > 2 then m - 3 else m + 9
  let doy : Int := Int.fdiv (153 * mp + 2) 5 + d - 1
  let doe : Int := yoe * 365 + Int.fdiv yoe 4 - Int.fdiv yoe 100 + doy
  era * 146097 + doe - 719468

/-- A calendar date; kept normalized (`month` in 1..12, `day` a valid
day of that month) by constructing only through `ofEpochDays`. -/
structure Date where
  year : Int
  month : Int
  day : Int
  deriving DecidableEq, Repr

/-- Civil date of a days-since-epoch count (inverse era decomposition). -/
def ofEpochDays (z0 : Int) : Date :=
  let z : Int := z0 + 719468
  let era : Int := Int.fdiv z 146097
  let doe : Int := z - era * 146097
  let yoe : Int :=
    Int.fdiv (doe - Int.fdiv doe 1460 + Int.fdiv doe 36524 - Int.fdiv doe 146096) 365
  let y : Int := yoe + era * 400
  let doy : Int := doe - (365 * yoe + Int.fdiv yoe 4 - Int.fdiv yoe 100)
  let mp : Int := Int.fdiv (5 * doy + 2) 153
  let d : Int := doy - Int.fdiv (153 * mp + 2) 5 + 1
  let m : Int := if mp < 10 then mp + 3 else mp - 9
  ⟨if m ≤ 2 then y + 1 else y, m, d⟩

def Date.toEpochDays (dt : Date) : Int :=
  daysFromCivil dt.year dt.month dt.day

/-- JS `setMonth(getMonth() + k)`: month arithmetic normalizes into the
year first, then the kept day-of-month rolls over by day counting. -/
def Date.addMonths (dt : Date) (k : Int) : Date :=
  let tot : Int := 12 * dt.year + (dt.month - 1) + k
  ofEpochDays (daysFromCivil (Int.fdiv tot 12) (Int.emod tot 12 + 1) 1 + (dt.day - 1))

/-- JS `setFullYear(getFullYear() + k)`: same month and day, with
rollover (Feb 29 of a leap year plus one year lands on Mar 1). -/
def Date.addYears (dt : Date) (k : Int) : Date :=
  ofEpochDays (daysFromCivil (dt.year + k) dt.month 1 + (dt.day - 1))

/-- JS `setDate(getDate() + k)`: plain day arithmetic. -/
def Date.addDays (dt : Date) (k : Int) : Date :=
  ofEpochDays (dt.toEpochDays + k)

/-- JS `Date` validity: a time value is `NaN` once it leaves the
±8.64e15 ms range, i.e. ±100000000 days from the epoch.  This is the
condition the services test with `isNaN(date.getTime())`. -/
def Date.inRange (dt : Date) : Bool :=
  dt.toEpochDays.natAbs ≤ 100000000

/-! ## Record shapes (`types/index.ts`) -/

abbrev UserId := String
abbrev PropertyId := String
abbrev TaskId := String
abbrev Timestamp := Nat

inductive ShareRole where
  | collaborator
  | viewer
  deriving DecidableEq, Repr

structure PropertyShare where
  userId : UserId
  role : ShareRole
  deriving DecidableEq, Repr

inductive PropertyType where
  | primary
  | rental
  | family
  deriving DecidableEq, Repr

inductive PropertyStatus where
  | active
  | sold
  | archived
  deriving DecidableEq, Repr

structure Property where
  id : PropertyId
  ownerId : UserId
  address : String
  type : PropertyType
  notes : String
  photoURL : String
  createdAt : Timestamp
  updatedAt : Timestamp
  sharedWith : List PropertyShare
  propertyStatus : PropertyStatus
  historyVisible : Bool
  deriving DecidableEq, Repr

inductive TaskStatus where
  | pending
  | completed
  | skipped
  deriving DecidableEq, Repr

/-- Recurrence as stored: the schema-less store can hold any `freq`
string, which is why `createRecurringTask` has a default error branch. -/
structure TaskRecurrence where
  freq : String
  interval : Int
  deriving DecidableEq, Repr

structure Task where
  id : TaskId
  propertyId : PropertyId
  title : String
  description : String
  dueDate : Date
  status : TaskStatus
  completedBy : Option UserId
  createdAt : Timestamp
  updatedAt : Timestamp
  recurrence : Option TaskRecurrence
  seasonal : Bool
  geolocated : Bool
  source : String
  deriving DecidableEq, Repr

structure PropertyRelationship where
  propertyId : PropertyId
  label : String
  deriving DecidableEq, Repr

structure User where
  uid : UserId
  email : String
  displayName : String
  photoURL : String
  timezone : String
  createdAt : Timestamp
  lastLogin : Timestamp
  linkedProperties : List PropertyId
  relationships : List PropertyRelationship
  deriving DecidableEq, Repr

/-- The three Firestore collections plus the id generator for `addDoc`. -/
structure DB where
  properties : List Property
  tasks : List Task
  users : List User
  nextTaskId : Nat
  deriving DecidableEq, Repr

/-- Labels for the exceptions the services throw. -/
inductive Err where
  | permissionDenied
  | validation
  | notFound
  | unsupportedRecurrence
  | invalidDate
  deriving DecidableEq, Repr

/-! ## PropertyService -/

structure PropertyPermissions where
  canView : Bool
  canEdit : Bool
  canDelete : Bool
  canShare : Bool
  role : String
  deriving DecidableEq, Repr

def getPropertyById (db : DB) (id : PropertyId) : Option Property :=
  db.properties.find? (fun p => p.id == id)

def getUserPropertyPermissions (db : DB) (userId : UserId) (propertyId : PropertyId) :
    PropertyPermissions :=
  match getPropertyById db propertyId with
  | none => ⟨false, false, false, false, "none"⟩
  | some property =>
    if property.ownerId == userId then
      ⟨true, true, true, true, "owner"⟩
    else
      match property.sharedWith.find? (fun share => share.userId == userId) with
      | some userShare =>
        match userShare.role with
        | .collaborator => ⟨true, true, false, false, "collaborator"⟩
        | .viewer => ⟨true, false, false, false, "viewer"⟩
      | none => ⟨false, false, false, false, "none"⟩

/-- A `Partial<PropertyInput>` patch: `none` is an absent (or
`undefined`, hence deleted) field. -/
structure PropertyPatch where
  address : Option String
  type : Option PropertyType
  notes : Option String
  ownerId : Option UserId
  photoURL : Option String
  sharedWith : Option (List PropertyShare)
  propertyStatus : Option PropertyStatus
  historyVisible : Option Bool
  deriving DecidableEq, Repr

/-- The write `updateProperty` performs: every patch field except
`ownerId` (which the code deletes from the update object) overwrites the
stored field, and `updatedAt` is set to the server timestamp. -/
def applyPropertyPatch (p : Property) (patch : PropertyPatch) (now : Timestamp) : Property :=
  { p with
    address := patch.address.getD p.address
    type := patch.type.getD p.type
    notes := patch.notes.getD p.notes
    photoURL := patch.photoURL.getD p.photoURL
    sharedWith := patch.sharedWith.getD p.sharedWith
    propertyStatus := patch.propertyStatus.getD p.propertyStatus
    historyVisible := patch.historyVisible.getD p.historyVisible
    updatedAt := now }

def updateProperty (id : PropertyId) (patch : PropertyPatch) (userId : UserId)
    (now : Timestamp) (db : DB) : Except Err DB :=
  let permissions := getUserPropertyPermissions db userId id
  if !permissions.canEdit then
    .error .permissionDenied
  else
    .ok { db with
      properties := db.properties.map (fun p =>
        if p.id == id then applyPropertyPatch p patch now else p) }

def deleteProperty (id : PropertyId) (userId : UserId) (db : DB) : Except Err DB :=
  let permissions := getUserPropertyPermissions db userId id
  if !permissions.canDelete then
    .error .permissionDenied
  else
    .ok { db with properties := db.properties.filter (fun p => p.id != id) }

/-- The upsert `shareProperty` performs on the `sharedWith` array:
replace the role of an existing entry for `targetUserId`, else append. -/
def upsertShare (sharedWith : List PropertyShare) (targetUserId : UserId)
    (role : ShareRole) : List PropertyShare :=
  match sharedWith.find? (fun share => share.userId == targetUserId) with
  | some _ =>
    sharedWith.map (fun share =>
      if share.userId == targetUserId then { share with role := role } else share)
  | none => sharedWith ++ [⟨targetUserId, role⟩]

def shareProperty (propertyId : PropertyId) (targetUserId : UserId) (role : ShareRole)
    (currentUserId : UserId) (now : Timestamp) (db : DB) : Except Err DB :=
  let permissions := getUserPropertyPermissions db currentUserId propertyId
  if !permissions.canShare then
    .error .permissionDenied
  else
    match getPropertyById db propertyId with
    | none => .ok db
    | some property =>
      .ok { db with
        properties := db.properties.map (fun p =>
          if p.id == propertyId then
            { p with
              sharedWith := upsertShare property.sharedWith targetUserId role
              updatedAt := now }
          else p) }

/-- `updatePropertyStatus` takes no acting user and checks no
permissions; the only failure is Firestore `updateDoc` rejecting a
missing document. -/
def updatePropertyStatus (propertyId : PropertyId) (status : PropertyStatus)
    (now : Timestamp) (db : DB) : Except Err DB :=
  match getPropertyById db propertyId with
  | none => .error .notFound
  | some _ =>
    .ok { db with
      properties := db.properties.map (fun p =>
        if p.id == propertyId then
          { p with propertyStatus := status, updatedAt := now }
        else p) }

/-- JS `String.prototype.trim()`: drop leading and trailing whitespace
(structural model over the character list). -/
def strTrim (s : String) : String :=
  ⟨((s.data.dropWhile Char.isWhitespace).reverse.dropWhile Char.isWhitespace).reverse⟩

/-! ## TaskService -/

structure TaskPermissions where
  canView : Bool
  canEdit : Bool
  canCreate : Bool
  canDelete : Bool
  role : String
  deriving DecidableEq, Repr

def getUserTaskPermissions (db : DB) (userId : UserId) (propertyId : PropertyId) :
    TaskPermissions :=
  match getPropertyById db propertyId with
  | none => ⟨false, false, false, false, "none"⟩
  | some property =>
    if property.ownerId == userId then
      ⟨true, true, true, true, "owner"⟩
    else
      match property.sharedWith.find? (fun share => share.userId == userId) with
      | some userShare =>
        match userShare.role with
        | .collaborator => ⟨true, true, true, true, "collaborator"⟩
        | .viewer => ⟨true, false, false, false, "viewer"⟩
      | none => ⟨false, false, false, false, "none"⟩

def findTask (db : DB) (id : TaskId) : Option Task :=
  db.tasks.find? (fun t => t.id == id)

def checkTaskAccess (db : DB) (userId : UserId) (taskId : TaskId) : TaskPermissions :=
  match findTask db taskId with
  | none => ⟨false, false, false, false, "none"⟩
  | some task => getUserTaskPermissions db userId task.propertyId

structure TaskInput where
  propertyId : PropertyId
  title : String
  description : Option String
  dueDate : Date
  recurrence : Option TaskRecurrence
  seasonal : Option Bool
  geolocated : Option Bool
  source : Option String
  deriving DecidableEq, Repr

/-- Ids `addDoc` generates for the tasks collection. -/
def genTaskId (n : Nat) : TaskId := "task_" ++ toString n

def addTask (data : TaskInput) (userId : UserId) (now : Timestamp) (db : DB) :
    Except Err (DB × TaskId) :=
  let permissions := getUserTaskPermissions db userId data.propertyId
  if !permissions.canCreate then
    .error .permissionDenied
  else if strTrim data.title == "" then
    .error .validation
  else if data.propertyId == "" then
    .error .validation
  else
    let newId := genTaskId db.nextTaskId
    let task : Task :=
      { id := newId
        propertyId := data.propertyId
        title := strTrim data.title
        description := (data.description.map strTrim).getD ""
        dueDate := data.dueDate
        status := .pending
        completedBy := none
        createdAt := now
        updatedAt := now
        recurrence := data.recurrence
        seasonal := data.seasonal.getD false
        geolocated := data.geolocated.getD false
        source := data.source.getD "manual" }
    .ok ({ db with tasks := db.tasks ++ [task], nextTaskId := db.nextTaskId + 1 }, newId)

/-- Shared shape of the single-task mutations: permission check through
`checkTaskAccess`, then an `updateDoc` on the task document. -/
def mutateTask (id : TaskId) (userId : UserId) (db : DB)
    (needed : TaskPermissions → Bool) (write : Task → Task) : Except Err DB :=
  let permissions := checkTaskAccess db userId id
  if !needed permissions then
    .error .permissionDenied
  else
    .ok { db with tasks := db.tasks.map (fun t => if t.id == id then write t else t) }

def completeTask (id : TaskId) (userId : UserId) (now : Timestamp) (db : DB) :
    Except Err DB :=
  mutateTask id userId db (fun p => p.canEdit) (fun t =>
    { t with status := .completed, completedBy := some userId, updatedAt := now })

def reopenTask (id : TaskId) (userId : UserId) (now : Timestamp) (db : DB) :
    Except Err DB :=
  mutateTask id userId db (fun p => p.canEdit) (fun t =>
    { t with status := .pending, completedBy := none, updatedAt := now })

/-- `skipTask` writes only `status` and `updatedAt`; it leaves
`completedBy` as it was. -/
def skipTask (id : TaskId) (userId : UserId) (now : Timestamp) (db : DB) :
    Except Err DB :=
  mutateTask id userId db (fun p => p.canEdit) (fun t =>
    { t with status := .skipped, updatedAt := now })

def deleteTask (id : TaskId) (userId : UserId) (db : DB) : Except Err DB :=
  let permissions := checkTaskAccess db userId id
  if !permissions.canDelete then
    .error .permissionDenied
  else
    .ok { db with tasks := db.tasks.filter (fun t => t.id != id) }

def getTaskById (id : TaskId) (userId : UserId) (db : DB) : Except Err (Option Task) :=
  match findTask db id with
  | none => .ok none
  | some task =>
    let permissions := getUserTaskPermissions db userId task.propertyId
    if !permissions.canView then
      .error .permissionDenied
    else
      .ok (some task)

/-- Ascending insertion by due date, modelling the stable client-side
`sort` on `dueDate.getTime()`. -/
def insertByDue (t : Task) : List Task → List Task
  | [] => [t]
  | u :: us =>
    if u.dueDate.toEpochDays ≤ t.dueDate.toEpochDays then u :: insertByDue t us
    else t :: u :: us

def sortByDue (l : List Task) : List Task :=
  l.foldl (fun acc t => insertByDue t acc) []

def getTasksByProperty (propertyId : PropertyId) (userId : UserId) (db : DB) :
    Except Err (List Task) :=
  let permissions := getUserTaskPermissions db userId propertyId
  if !permissions.canView then
    .error .permissionDenied
  else
    .ok (sortByDue (db.tasks.filter (fun t => t.propertyId == propertyId)))

/-- `getOverdueTasks` filters the viewable properties, fetches their
tasks and keeps the pending ones already past due.  Unlike
`getUpcomingTasks` it performs no sort: the store order is returned. -/
def getOverdueTasks (propertyIds : List PropertyId) (userId : UserId) (now : Date)
    (db : DB) : Except Err (List Task) :=
  if propertyIds.isEmpty then .ok []
  else
    let accessible := propertyIds.filter (fun pid =>
      (getUserTaskPermissions db userId pid).canView)
    if accessible.isEmpty then .ok []
    else
      let allTasks := db.tasks.filter (fun t => accessible.contains t.propertyId)
      .ok (allTasks.filter (fun t =>
        t.status == .pending && t.dueDate.toEpochDays < now.toEpochDays))

/-- The `switch (freq)` of `createRecurringTask` followed by the
`isNaN` check on the computed date. -/
def computeNextDueDate (d : Date) (r : TaskRecurrence) : Except Err Date :=
  if r.freq == "monthly" then
    let nd := d.addMonths r.interval
    if nd.inRange then .ok nd else .error .invalidDate
  else if r.freq == "yearly" then
    let nd := d.addYears r.interval
    if nd.inRange then .ok nd else .error .invalidDate
  else if r.freq == "custom" then
    let nd := d.addDays r.interval
    if nd.inRange then .ok nd else .error .invalidDate
  else
    .error .unsupportedRecurrence

def createRecurringTask (originalTaskId : TaskId) (userId : UserId) (now : Timestamp)
    (db : DB) : Except Err DB :=
  match getTaskById originalTaskId userId db with
  | .error e => .error e
  | .ok none => .error .notFound
  | .ok (some task) =>
    match task.recurrence with
    | none => .error .notFound
    | some r =>
      let permissions := getUserTaskPermissions db userId task.propertyId
      if !permissions.canCreate then
        .error .permissionDenied
      else if !task.dueDate.inRange then
        .error .invalidDate
      else
        match computeNextDueDate task.dueDate r with
        | .error e => .error e
        | .ok newDueDate =>
          match addTask
              { propertyId := task.propertyId
                title := task.title
                description := some task.description
                dueDate := newDueDate
                recurrence := some r
                seasonal := some task.seasonal
                geolocated := some task.geolocated
                source := some task.source } userId now db with
          | .error e => .error e
          | .ok (db2, _) => .ok db2

def completeAndCreateNext (taskId : TaskId) (userId : UserId) (now : Timestamp)
    (db : DB) : Except Err DB :=
  match completeTask taskId userId now db with
  | .error e => .error e
  | .ok db1 =>
    match getTaskById taskId userId db1 with
    | .error e => .error e
    | .ok (some task) =>
      if task.recurrence.isSome then createRecurringTask taskId userId now db1
      else .ok db1
    | .ok none => .ok db1

/-! ## UserService -/

def getUserById (db : DB) (uid : UserId) : Option User :=
  db.users.find? (fun u => u.uid == uid)

/-- `addPropertyRelationship`: a no-op when the user already has a
relationship for the property; otherwise appends the one relationship,
links the property if it was not linked, and (through `updateUser`)
bumps `lastLogin`. -/
def addPropertyRelationship (uid : UserId) (propertyId : PropertyId) (label : String)
    (now : Timestamp) (db : DB) : DB :=
  match getUserById db uid with
  | none => db
  | some user =>
    match user.relationships.find? (fun rel => rel.propertyId == propertyId) with
    | some _ => db
    | none =>
      let updatedRelationships := user.relationships ++ [⟨propertyId, label⟩]
      let updatedLinkedProperties :=
        if user.linkedProperties.contains propertyId then user.linkedProperties
        else user.linkedProperties ++ [propertyId]
      { db with
        users := db.users.map (fun u =>
          if u.uid == uid then
            { u with
              relationships := updatedRelationships
              linkedProperties := updatedLinkedProperties
              lastLogin := now }
          else u) }

/-! ## Task lifecycle as a transition system -/

/-- The four lifecycle operations of the task state machine. -/
inductive TaskOp where
  | add (input : TaskInput) (userId : UserId)
  | complete (id : TaskId) (userId : UserId)
  | skip (id : TaskId) (userId : UserId)
  | reopen (id : TaskId) (userId : UserId)

/-- Run one lifecycle operation at a server timestamp; a thrown
permission or validation error leaves the store unchanged. -/
def applyTaskOp (db : DB) : TaskOp × Timestamp → DB
  | (.add input u, now) =>
    match addTask input u now db with
    | .ok (db2, _) => db2
    | .error _ => db
  | (.complete id u, now) =>
    match completeTask id u now db with
    | .ok db2 => db2
    | .error _ => db
  | (.skip id u, now) =>
    match skipTask id u now db with
    | .ok db2 => db2
    | .error _ => db
  | (.reopen id u, now) =>
    match reopenTask id u now db with
    | .ok db2 => db2
    | .error _ => db

/-- The `completedBy` discipline the lifecycle actually maintains:
pending tasks carry no `completedBy`, completed tasks always carry one.
A skipped task may carry either, because `skipTask` does not clear the
field. -/
def TaskInv (db : DB) : Prop :=
  ∀ t ∈ db.tasks,
    (t.status = .pending → t.completedBy = none) ∧
    (t.status = .completed → t.completedBy ≠ none)

/-! ## Concrete fixtures -/

def exProperty : Property :=
  ⟨"p1", "alice", "1 Main St", .primary, "", "", 0, 0, [⟨"bob", .viewer⟩], .active, true⟩

def exTask : Task :=
  ⟨"t1", "p1", "Clean gutters", "", ⟨2024, 1, 15⟩, .pending, none, 0, 0,
    some ⟨"monthly", 1⟩, false, false, "manual"⟩

def exDB : DB := ⟨[exProperty], [exTask], [], 0⟩

/-- `exTask` after `completeTask "t1" "alice" 1`. -/
def exTaskDone : Task :=
  ⟨"t1", "p1", "Clean gutters", "", ⟨2024, 1, 15⟩, .completed, some "alice", 0, 1,
    some ⟨"monthly", 1⟩, false, false, "manual"⟩

def exDBdone : DB := ⟨[exProperty], [exTaskDone], [], 0⟩

/-- `exTaskDone` after `skipTask "t1" "alice" 2`: the status is skipped
but the stale `completedBy` remains. -/
def exTaskSkip : Task :=
  ⟨"t1", "p1", "Clean gutters", "", ⟨2024, 1, 15⟩, .skipped, some "alice", 0, 2,
    some ⟨"monthly", 1⟩, false, false, "manual"⟩

def exDBskip : DB := ⟨[exProperty], [exTaskSkip], [], 0⟩

/-- Store for the overdue query: two pending overdue tasks held in
non-ascending due-date order, one completed and one future task. -/
def c8late : Task :=
  ⟨"t5", "p1", "Later", "", ⟨2024, 1, 5⟩, .pending, none, 0, 0, none, false, false, "manual"⟩

def c8early : Task :=
  ⟨"t3", "p1", "Earlier", "", ⟨2024, 1, 3⟩, .pending, none, 0, 0, none, false, false, "manual"⟩

def c8done : Task :=
  ⟨"t2", "p1", "Done", "", ⟨2024, 1, 2⟩, .completed, some "alice", 0, 0, none, false, false,
    "manual"⟩

def c8future : Task :=
  ⟨"t9", "p1", "Future", "", ⟨2024, 1, 20⟩, .pending, none, 0, 0, none, false, false, "manual"⟩

def c8db : DB := ⟨[exProperty], [c8late, c8early, c8done, c8future], [], 0⟩

/-! ## Helper lemmas -/

theorem find?_map_update {α : Type} (l : List α) (q : α → Bool) (g : α → α)
    (hg : ∀ a, q a = true → q (g a) = true) :
    (l.map (fun a => if q a then g a else a)).find? q = (l.find? q).map g := by
  induction l with
  | nil => rfl
  | cons x xs ih =>
    cases hx : q x with
    | true =>
      simp only [List.map_cons, hx, if_true]
      rw [List.find?_cons_of_pos _ (hg x hx), List.find?_cons_of_pos _ hx]
      rfl
    | false =>
      simp only [List.map_cons, hx, if_false]
      rw [List.find?_cons_of_neg _ (by simp [hx]), List.find?_cons_of_neg _ (by simp [hx])]
      exact ih

theorem find?_key_of_mem {α β : Type} [DecidableEq β] (k : α → β) (l : List α) (u : β)
    (s : α) (hmem : s ∈ l) (hkey : k s = u)
    (huniq : l.Pairwise (fun a b => k a ≠ k b)) :
    l.find? (fun x => k x == u) = some s := by
  induction l with
  | nil => cases hmem
  | cons x xs ih =>
    rcases List.pairwise_cons.mp huniq with ⟨hx, hxs⟩
    rcases List.mem_cons.mp hmem with h | h
    · subst h
      exact List.find?_cons_of_pos _ (by simp [hkey])
    · have hne : k x ≠ u := fun hh => hx s h (by rw [hkey]; exact hh)
      rw [List.find?_cons_of_neg _ (by simp [hne])]
      exact ih h hxs

theorem find?_key_of_forall_ne {α β : Type} [DecidableEq β] (k : α → β) (l : List α)
    (u : β) (h : ∀ s ∈ l, k s ≠ u) : l.find? (fun x => k x == u) = none :=
  List.find?_eq_none.mpr (fun x hx => by simp [h x hx])

/-! ## Claim theorems -/

/-- C1: `getUserPropertyPermissions` resolves first-match, in order:
missing property → all false / role "none"; owner → all true / "owner",
independent of `sharedWith`; else the (unique) `sharedWith` entry for the
user gives collaborator view+edit, viewer view-only; no entry → all
false / "none". -/
theorem property_permission_resolution (db : DB) (userId : UserId)
    (propertyId : PropertyId) :
    (getPropertyById db propertyId = none →
      getUserPropertyPermissions db userId propertyId =
        ⟨false, false, false, false, "none"⟩) ∧
    (∀ p : Property, getPropertyById db propertyId = some p →
      (p.ownerId = userId →
        getUserPropertyPermissions db userId propertyId =
          ⟨true, true, true, true, "owner"⟩) ∧
      (p.ownerId ≠ userId →
        p.sharedWith.Pairwise (fun a b => a.userId ≠ b.userId) →
        ((⟨userId, .collaborator⟩ : PropertyShare) ∈ p.sharedWith →
          getUserPropertyPermissions db userId propertyId =
            ⟨true, true, false, false, "collaborator"⟩) ∧
        ((⟨userId, .viewer⟩ : PropertyShare) ∈ p.sharedWith →
          getUserPropertyPermissions db userId propertyId =
            ⟨true, false, false, false, "viewer"⟩) ∧
        ((∀ s ∈ p.sharedWith, s.userId ≠ userId) →
          getUserPropertyPermissions db userId propertyId =
            ⟨false, false, false, false, "none"⟩))) := by
  constructor
  · intro hnone
    simp [getUserPropertyPermissions, hnone]
  · intro p hp
    constructor
    · intro howner
      simp [getUserPropertyPermissions, hp, howner]
    · intro howner huniq
      refine ⟨?_, ?_, ?_⟩
      · intro hmem
        have hf := find?_key_of_mem PropertyShare.userId p.sharedWith userId
          ⟨userId, .collaborator⟩ hmem rfl huniq
        simp [getUserPropertyPermissions, hp, howner, hf]
      · intro hmem
        have hf := find?_key_of_mem PropertyShare.userId p.sharedWith userId
          ⟨userId, .viewer⟩ hmem rfl huniq
        simp [getUserPropertyPermissions, hp, howner, hf]
      · intro hnone
        have hf := find?_key_of_forall_ne PropertyShare.userId p.sharedWith userId hnone
        simp [getUserPropertyPermissions, hp, howner, hf]

/-- C1 witness: on a concrete store the owner gets the all-true "owner"
capabilities even though `sharedWith` is nonempty. -/
theorem property_permission_resolution_witness :
    getUserPropertyPermissions
      ⟨[⟨"p1", "alice", "1 Main St", .primary, "", "", 0, 0,
          [⟨"bob", .viewer⟩], .active, true⟩], [], [], 0⟩ "alice" "p1" =
      ⟨true, true, true, true, "owner"⟩ :=
  ((property_permission_resolution
      ⟨[⟨"p1", "alice", "1 Main St", .primary, "", "", 0, 0,
          [⟨"bob", .viewer⟩], .active, true⟩], [], [], 0⟩ "alice" "p1").2
    ⟨"p1", "alice", "1 Main St", .primary, "", "", 0, 0,
      [⟨"bob", .viewer⟩], .active, true⟩ (by rfl)).1 rfl

/-- C3: the next-due-date computation advances the original date by
`interval` calendar months for `freq = "monthly"`, by `interval` calendar
years for `"yearly"`, by `interval` days for `"custom"` (concretely,
custom/10 from 2024-01-25 gives 2024-02-04); any other `freq` fails with
the unsupported-recurrence error, and a computed date outside the valid
JS range fails with the invalid-date error. -/
theorem next_due_date_computation (d : Date) (r : TaskRecurrence) :
    (r.freq = "monthly" → computeNextDueDate d r =
      (if (d.addMonths r.interval).inRange then .ok (d.addMonths r.interval)
       else .error .invalidDate)) ∧
    (r.freq = "yearly" → computeNextDueDate d r =
      (if (d.addYears r.interval).inRange then .ok (d.addYears r.interval)
       else .error .invalidDate)) ∧
    (r.freq = "custom" → computeNextDueDate d r =
      (if (d.addDays r.interval).inRange then .ok (d.addDays r.interval)
       else .error .invalidDate)) ∧
    (r.freq ≠ "monthly" → r.freq ≠ "yearly" → r.freq ≠ "custom" →
      computeNextDueDate d r = .error .unsupportedRecurrence) ∧
    computeNextDueDate ⟨2024, 1, 25⟩ ⟨"custom", 10⟩ = .ok ⟨2024, 2, 4⟩ := by
  refine ⟨?_, ?_, ?_, ?_, by rfl⟩
  · intro h; simp [computeNextDueDate, h]
  · intro h; simp [computeNextDueDate, h]
  · intro h; simp [computeNextDueDate, h]
  · intro h1 h2 h3; simp [computeNextDueDate, h1, h2, h3]

/-- C3 witness: the custom branch instantiated at 2024-01-25 with
interval 10. -/
theorem next_due_date_computation_witness :
    computeNextDueDate ⟨2024, 1, 25⟩ ⟨"custom", 10⟩ =
      (if (Date.addDays ⟨2024, 1, 25⟩ 10).inRange
       then .ok (Date.addDays ⟨2024, 1, 25⟩ 10) else .error .invalidDate) :=
  (next_due_date_computation ⟨2024, 1, 25⟩ ⟨"custom", 10⟩).2.2.1 rfl

/-- C9: `updatePropertyStatus` takes no acting user and never fails with
the permission error: whenever the property exists it unconditionally
writes `propertyStatus` and bumps `updatedAt` — unlike `updateProperty`,
`deleteProperty` and `shareProperty`, which all fail with the permission
error when the acting user lacks the needed capability. -/
theorem update_property_status_unchecked (db : DB) (propertyId : PropertyId)
    (status : PropertyStatus) (now : Timestamp) :
    (updatePropertyStatus propertyId status now db ≠ .error .permissionDenied) ∧
    (∀ p : Property, getPropertyById db propertyId = some p →
      updatePropertyStatus propertyId status now db =
        .ok { db with properties := db.properties.map (fun q =>
          if q.id == propertyId then { q with propertyStatus := status, updatedAt := now }
          else q) }) ∧
    (∀ patch userId, (getUserPropertyPermissions db userId propertyId).canEdit = false →
      updateProperty propertyId patch userId now db = .error .permissionDenied) ∧
    (∀ userId, (getUserPropertyPermissions db userId propertyId).canDelete = false →
      deleteProperty propertyId userId db = .error .permissionDenied) ∧
    (∀ targetUserId role userId,
      (getUserPropertyPermissions db userId propertyId).canShare = false →
      shareProperty propertyId targetUserId role userId now db =
        .error .permissionDenied) := by
  refine ⟨?_, ?_, ?_, ?_, ?_⟩
  · unfold updatePropertyStatus
    cases getPropertyById db propertyId <;> simp
  · intro p hp
    simp [updatePropertyStatus, hp]
  · intro patch userId h
    simp [updateProperty, h]
  · intro userId h
    simp [deleteProperty, h]
  · intro targetUserId role userId h
    simp [shareProperty, h]

/-- C9 witness: status update on a concrete store by nobody in
particular, and the permission failures of the checked mutations for a
stranger. -/
theorem update_property_status_unchecked_witness :
    updatePropertyStatus "p1" .sold 5
      ⟨[⟨"p1", "alice", "1 Main St", .primary, "", "", 0, 0, [], .active, true⟩],
        [], [], 0⟩ =
      .ok ⟨[⟨"p1", "alice", "1 Main St", .primary, "", "", 0, 5, [], .sold, true⟩],
        [], [], 0⟩ := by
  have h := (update_property_status_unchecked
    ⟨[⟨"p1", "alice", "1 Main St", .primary, "", "", 0, 0, [], .active, true⟩],
      [], [], 0⟩ "p1" .sold 5).2.1
    ⟨"p1", "alice", "1 Main St", .primary, "", "", 0, 0, [], .active, true⟩ (by rfl)
  simpa using h

/-- C5: a user who is not the owner but holds a viewer entry in the
property's `sharedWith` list resolves to view-only task capabilities:
listing the property's tasks succeeds, while `addTask`, `completeTask`
and `deleteTask` each fail with the permission error before any write. -/
theorem viewer_read_only (db : DB) (userId : UserId) (p : Property)
    (hp : getPropertyById db p.id = some p)
    (howner : p.ownerId ≠ userId)
    (hmem : (⟨userId, .viewer⟩ : PropertyShare) ∈ p.sharedWith)
    (huniq : p.sharedWith.Pairwise (fun a b => a.userId ≠ b.userId)) :
    getUserTaskPermissions db userId p.id = ⟨true, false, false, false, "viewer"⟩ ∧
    getTasksByProperty p.id userId db =
      .ok (sortByDue (db.tasks.filter (fun t => t.propertyId == p.id))) ∧
    (∀ (input : TaskInput) (now : Timestamp), input.propertyId = p.id →
      addTask input userId now db = .error .permissionDenied) ∧
    (∀ (taskId : TaskId) (t : Task) (now : Timestamp),
      findTask db taskId = some t → t.propertyId = p.id →
      completeTask taskId userId now db = .error .permissionDenied ∧
      deleteTask taskId userId db = .error .permissionDenied) := by
  have hf := find?_key_of_mem PropertyShare.userId p.sharedWith userId
    ⟨userId, .viewer⟩ hmem rfl huniq
  have hperm : getUserTaskPermissions db userId p.id =
      ⟨true, false, false, false, "viewer"⟩ := by
    simp [getUserTaskPermissions, hp, howner, hf]
  refine ⟨hperm, ?_, ?_, ?_⟩
  · simp [getTasksByProperty, hperm]
  · intro input now hin
    simp [addTask, hin, hperm]
  · intro taskId t now hfind hpid
    constructor
    · simp [completeTask, mutateTask, checkTaskAccess, hfind, hpid, hperm]
    · simp [deleteTask, checkTaskAccess, hfind, hpid, hperm]

/-- C5 witness: on the concrete store, "bob" (a viewer on "p1") can
list tasks but is denied `completeTask` on task "t1". -/
theorem viewer_read_only_witness :
    getUserTaskPermissions exDB "bob" "p1" = ⟨true, false, false, false, "viewer"⟩ ∧
    completeTask "t1" "bob" 3 exDB = .error .permissionDenied :=
  ⟨(viewer_read_only exDB "bob" exProperty (by rfl) (by decide) (by decide)
      (by decide)).1,
    ((viewer_read_only exDB "bob" exProperty (by rfl) (by decide) (by decide)
      (by decide)).2.2.2 "t1" exTask 3 (by rfl) (by rfl)).1⟩

/-- C6: `updateProperty` demands `canEdit` (else the permission error and
no write), strips `ownerId` from the patch so the stored owner never
changes, applies exactly the remaining patch fields, and bumps only
`updatedAt` beyond them. -/
theorem update_property_frame (db : DB) (id : PropertyId) (patch : PropertyPatch)
    (userId : UserId) (now : Timestamp) :
    ((getUserPropertyPermissions db userId id).canEdit = false →
      updateProperty id patch userId now db = .error .permissionDenied) ∧
    ((getUserPropertyPermissions db userId id).canEdit = true →
      updateProperty id patch userId now db =
        .ok { db with properties := db.properties.map (fun p =>
          if p.id == id then applyPropertyPatch p patch now else p) }) ∧
    (∀ p : Property,
      (applyPropertyPatch p patch now).ownerId = p.ownerId ∧
      (applyPropertyPatch p patch now).updatedAt = now ∧
      (applyPropertyPatch p patch now).id = p.id ∧
      (applyPropertyPatch p patch now).createdAt = p.createdAt ∧
      (applyPropertyPatch p patch now).address = patch.address.getD p.address ∧
      (applyPropertyPatch p patch now).type = patch.type.getD p.type ∧
      (applyPropertyPatch p patch now).notes = patch.notes.getD p.notes ∧
      (applyPropertyPatch p patch now).photoURL = patch.photoURL.getD p.photoURL ∧
      (applyPropertyPatch p patch now).sharedWith = patch.sharedWith.getD p.sharedWith ∧
      (applyPropertyPatch p patch now).propertyStatus =
        patch.propertyStatus.getD p.propertyStatus ∧
      (applyPropertyPatch p patch now).historyVisible =
        patch.historyVisible.getD p.historyVisible) := by
  refine ⟨?_, ?_, ?_⟩
  · intro h
    simp [updateProperty, h]
  · intro h
    simp [updateProperty, h]
  · intro p
    exact ⟨rfl, rfl, rfl, rfl, rfl, rfl, rfl, rfl, rfl, rfl, rfl⟩

/-- C6 witness: the owner applies a patch whose `ownerId` field is set
to "mallory"; the stored owner remains "alice". -/
theorem update_property_frame_witness :
    updateProperty "p1" ⟨some "2 Oak Ave", none, none, some "mallory", none, none, none, none⟩
      "alice" 5 exDB =
      .ok { exDB with properties := exDB.properties.map (fun p =>
        if p.id == "p1" then
          applyPropertyPatch p
            ⟨some "2 Oak Ave", none, none, some "mallory", none, none, none, none⟩ 5
        else p) } ∧
    (applyPropertyPatch exProperty
      ⟨some "2 Oak Ave", none, none, some "mallory", none, none, none, none⟩ 5).ownerId =
      "alice" :=
  ⟨(update_property_frame exDB "p1"
      ⟨some "2 Oak Ave", none, none, some "mallory", none, none, none, none⟩
      "alice" 5).2.1 (by rfl),
    ((update_property_frame exDB "p1"
      ⟨some "2 Oak Ave", none, none, some "mallory", none, none, none, none⟩
      "alice" 5).2.2 exProperty).1⟩

/-- C10: `addPropertyRelationship` is a no-op (store fully unchanged)
when the user already has a relationship for the property; otherwise it
appends exactly one relationship, links the property only if unlinked,
and both the one-relationship-per-property invariant and the
no-duplicate `linkedProperties` invariant are preserved. -/
theorem add_property_relationship_spec (db : DB) (uid : UserId)
    (propertyId : PropertyId) (label : String) (now : Timestamp) (u : User)
    (hu : getUserById db uid = some u) :
    (∀ rel, u.relationships.find? (fun x => x.propertyId == propertyId) = some rel →
      addPropertyRelationship uid propertyId label now db = db) ∧
    (u.relationships.find? (fun x => x.propertyId == propertyId) = none →
      addPropertyRelationship uid propertyId label now db =
        { db with users := db.users.map (fun w =>
          if w.uid == uid then
            { w with
              relationships := u.relationships ++ [⟨propertyId, label⟩]
              linkedProperties :=
                if u.linkedProperties.contains propertyId then u.linkedProperties
                else u.linkedProperties ++ [propertyId]
              lastLogin := now }
          else w) } ∧
      (u.relationships.Pairwise (fun a b => a.propertyId ≠ b.propertyId) →
        (u.relationships ++ [(⟨propertyId, label⟩ : PropertyRelationship)]).Pairwise
          (fun a b => a.propertyId ≠ b.propertyId)) ∧
      (u.linkedProperties.Nodup →
        (if u.linkedProperties.contains propertyId then u.linkedProperties
         else u.linkedProperties ++ [propertyId]).Nodup)) := by
  constructor
  · intro rel hf
    simp [addPropertyRelationship, hu, hf]
  · intro hf
    refine ⟨?_, ?_, ?_⟩
    · simp [addPropertyRelationship, hu, hf]
    · intro huniq
      rw [List.pairwise_append]
      refine ⟨huniq, List.pairwise_singleton _ _, ?_⟩
      intro a ha b hb
      rw [List.mem_singleton] at hb
      subst hb
      intro hh
      exact (List.find?_eq_none.mp hf a ha) (by simp [hh])
    · intro hnodup
      cases hc : u.linkedProperties.contains propertyId with
      | true =>
        rw [if_pos rfl]
        exact hnodup
      | false =>
        have hnot : propertyId ∉ u.linkedProperties := by
          intro hmem
          rw [show u.linkedProperties.contains propertyId = u.linkedProperties.elem propertyId
            from rfl, List.elem_iff.mpr hmem] at hc
          cases hc
        rw [if_neg (by simp)]
        exact List.Nodup.append hnodup (List.nodup_singleton _)
          (List.disjoint_singleton.mpr hnot)

/-- C10 witness: adding a relationship for an unrelated property appends
it and links the property; the concrete user starts with one
relationship for a different property. -/
theorem add_property_relationship_witness :
    addPropertyRelationship "carol" "p2" "Beach House" 9
      ⟨[], [], [⟨"carol", "c@x", "Carol", "", "UTC", 0, 0, ["p1"], [⟨"p1", "Home"⟩]⟩], 0⟩ =
      ⟨[], [], [⟨"carol", "c@x", "Carol", "", "UTC", 0, 9, ["p1", "p2"],
        [⟨"p1", "Home"⟩, ⟨"p2", "Beach House"⟩]⟩], 0⟩ := by
  have h := ((add_property_relationship_spec
    ⟨[], [], [⟨"carol", "c@x", "Carol", "", "UTC", 0, 0, ["p1"], [⟨"p1", "Home"⟩]⟩], 0⟩
    "carol" "p2" "Beach House" 9
    ⟨"carol", "c@x", "Carol", "", "UTC", 0, 0, ["p1"], [⟨"p1", "Home"⟩]⟩
    (by rfl)).2 (by rfl)).1
  simpa using h

/-- Replacing the role of the matching entries keeps every `userId`, so
the upsert map step preserves the key of each element. -/
theorem upsertShare_map_userId (u : UserId) (r0 : ShareRole) (share : PropertyShare) :
    (if share.userId == u then { share with role := r0 } else share).userId =
      share.userId := by
  by_cases h : (share.userId == u) = true
  · rw [if_pos h]
  · rw [if_neg h]

/-- The upsert never duplicates: at most one entry per `userId` is
preserved. -/
theorem upsertShare_pairwise (l : List PropertyShare) (u : UserId) (r0 : ShareRole)
    (h : l.Pairwise (fun a b => a.userId ≠ b.userId)) :
    (upsertShare l u r0).Pairwise (fun a b => a.userId ≠ b.userId) := by
  unfold upsertShare
  cases hf : l.find? (fun share => share.userId == u) with
  | some s =>
    rw [List.pairwise_map]
    exact h.imp (fun hab => by
      rwa [upsertShare_map_userId, upsertShare_map_userId])
  | none =>
    rw [List.pairwise_append]
    refine ⟨h, List.pairwise_singleton _ _, ?_⟩
    intro a ha b hb
    rw [List.mem_singleton] at hb
    subst hb
    intro hh
    exact (List.find?_eq_none.mp hf a ha) (by simp [hh])

/-- Upserting the same target and role twice equals upserting once. -/
theorem upsertShare_idem (l : List PropertyShare) (u : UserId) (r0 : ShareRole) :
    upsertShare (upsertShare l u r0) u r0 = upsertShare l u r0 := by
  unfold upsertShare
  cases hf : l.find? (fun share => share.userId == u) with
  | some s =>
    have hmapfind := find?_map_update l (fun share => share.userId == u)
      (fun share => { share with role := r0 }) (fun a ha => ha)
    rw [hf] at hmapfind
    rw [hmapfind]
    simp only [Option.map_some]
    rw [List.map_map]
    apply List.map_congr_left
    intro a _
    by_cases ha : (a.userId == u) = true
    · simp [Function.comp, ha]
    · simp [Function.comp, ha]
  | none =>
    rw [List.find?_append, hf, Option.none_or]
    rw [List.find?_cons_of_pos _ (by simp)]
    rw [List.map_append]
    have h1 : l.map (fun share =>
        if share.userId == u then { share with role := r0 } else share) = l := by
      have hcongr : ∀ a ∈ l,
          (fun share =>
            if share.userId == u then { share with role := r0 } else share) a = id a :=
        fun a ha => by simp [List.find?_eq_none.mp hf a ha]
      rw [List.map_congr_left hcongr, List.map_id]
    rw [h1]
    simp

/-- `canShare` is granted only in the owner branch, so a positive
`canShare` pins down the property record and its owner. -/
theorem canShare_owner (db : DB) (u : UserId) (pid : PropertyId)
    (h : (getUserPropertyPermissions db u pid).canShare = true) :
    ∃ p, getPropertyById db pid = some p ∧ p.ownerId = u := by
  cases hp : getPropertyById db pid with
  | none => simp [getUserPropertyPermissions, hp] at h
  | some p =>
    refine ⟨p, rfl, ?_⟩
    by_cases ho : (p.ownerId == u) = true
    · exact beq_iff_eq.mp ho
    · cases hf : p.sharedWith.find? (fun share => share.userId == u) with
      | none => simp [getUserPropertyPermissions, hp, ho, hf] at h
      | some s =>
        cases hsr : s.role with
        | collaborator => simp [getUserPropertyPermissions, hp, ho, hf, hsr] at h
        | viewer => simp [getUserPropertyPermissions, hp, ho, hf, hsr] at h

/-- C7: `shareProperty` (permitted only with `canShare`) upserts the
target into `sharedWith`: it replaces an existing entry's role in place
or appends one new entry, it preserves the at-most-one-entry-per-user
invariant, and repeating the call with the same target and role returns
the store unchanged. -/
theorem share_property_upsert (db : DB) (propertyId : PropertyId)
    (targetUserId : UserId) (role : ShareRole) (currentUserId : UserId)
    (now : Timestamp) (p : Property)
    (hshare : (getUserPropertyPermissions db currentUserId propertyId).canShare = true)
    (hp : getPropertyById db propertyId = some p) :
    shareProperty propertyId targetUserId role currentUserId now db =
      .ok { db with properties := db.properties.map (fun q =>
        if q.id == propertyId then
          { q with sharedWith := upsertShare p.sharedWith targetUserId role, updatedAt := now }
        else q) } ∧
    shareProperty propertyId targetUserId role currentUserId now
      { db with properties := db.properties.map (fun q =>
        if q.id == propertyId then
          { q with sharedWith := upsertShare p.sharedWith targetUserId role, updatedAt := now }
        else q) } =
      .ok { db with properties := db.properties.map (fun q =>
        if q.id == propertyId then
          { q with sharedWith := upsertShare p.sharedWith targetUserId role, updatedAt := now }
        else q) } ∧
    (p.sharedWith.Pairwise (fun a b => a.userId ≠ b.userId) →
      (upsertShare p.sharedWith targetUserId role).Pairwise
        (fun a b => a.userId ≠ b.userId)) ∧
    (∀ (l : List PropertyShare) (u : UserId) (r0 : ShareRole),
      upsertShare (upsertShare l u r0) u r0 = upsertShare l u r0) := by
  obtain ⟨p0, hp0, downer0⟩ := canShare_owner db currentUserId propertyId hshare
  rw [hp] at hp0
  have downer : p.ownerId = currentUserId := by
    rw [Option.some.inj hp0]
    exact downer0
  have hfind2 : getPropertyById
      ({ db with properties := db.properties.map (fun q =>
        if q.id == propertyId then
          { q with sharedWith := upsertShare p.sharedWith targetUserId role, updatedAt := now }
        else q) } : DB) propertyId =
      some { p with sharedWith := upsertShare p.sharedWith targetUserId role, updatedAt := now } := by
    show (db.properties.map (fun q =>
        if q.id == propertyId then
          { q with sharedWith := upsertShare p.sharedWith targetUserId role, updatedAt := now }
        else q)).find? (fun q => q.id == propertyId) = _
    rw [find?_map_update db.properties (fun q => q.id == propertyId)
      (fun q => { q with sharedWith := upsertShare p.sharedWith targetUserId role, updatedAt := now })
      (fun a ha => ha)]
    rw [show getPropertyById db propertyId =
      db.properties.find? (fun q => q.id == propertyId) from rfl] at hp
    rw [hp]
    rfl
  have hshare2 : (getUserPropertyPermissions
      ({ db with properties := db.properties.map (fun q =>
        if q.id == propertyId then
          { q with sharedWith := upsertShare p.sharedWith targetUserId role, updatedAt := now }
        else q) } : DB) currentUserId propertyId).canShare = true := by
    unfold getUserPropertyPermissions
    rw [hfind2]
    simp [downer]
  refine ⟨?_, ?_, fun h => upsertShare_pairwise _ _ _ h,
    fun l u r0 => upsertShare_idem l u r0⟩
  · simp [shareProperty, hshare, hp]
  · simp only [shareProperty, hshare2, Bool.not_true, Bool.false_eq_true, if_false,
      hfind2]
    rw [upsertShare_idem]
    have hmm : (db.properties.map (fun q =>
        if q.id == propertyId then
          { q with sharedWith := upsertShare p.sharedWith targetUserId role, updatedAt := now }
        else q)).map (fun q =>
        if q.id == propertyId then
          { q with sharedWith := upsertShare p.sharedWith targetUserId role, updatedAt := now }
        else q) =
        db.properties.map (fun q =>
        if q.id == propertyId then
          { q with sharedWith := upsertShare p.sharedWith targetUserId role, updatedAt := now }
        else q) := by
      rw [List.map_map]
      apply List.map_congr_left
      intro a _
      simp only [Function.comp_apply]
      by_cases ha : (a.id == propertyId) = true
      · rw [if_pos ha]
        have hid : ((({ a with
            sharedWith := upsertShare p.sharedWith targetUserId role,
            updatedAt := now } : Property)).id == propertyId) = true := ha
        rw [if_pos hid]
      · rw [if_neg ha, if_neg ha]
    rw [hmm]

/-- C7 witness: the owner shares "p1" with "bob" as collaborator,
overwriting the prior viewer entry in place; a second identical call
leaves the store as it stands. -/
theorem share_property_upsert_witness :
    shareProperty "p1" "bob" .collaborator "alice" 4 exDB =
      .ok { exDB with properties := exDB.properties.map (fun q =>
        if q.id == "p1" then
          { q with sharedWith := upsertShare exProperty.sharedWith "bob" .collaborator,
                   updatedAt := 4 }
        else q) } :=
  (share_property_upsert exDB "p1" "bob" .collaborator "alice" 4 exProperty
    (by rfl) (by rfl)).1

/-- C8 (amended): the overdue query returns exactly the pending tasks of
viewable properties whose due date is strictly before now — but in
store order: `getOverdueTasks` performs no sort. -/
theorem get_overdue_tasks_amended (propertyIds : List PropertyId) (userId : UserId)
    (now : Date) (db : DB) :
    getOverdueTasks propertyIds userId now db =
      .ok (db.tasks.filter (fun t =>
        (t.status == .pending && t.dueDate.toEpochDays < now.toEpochDays) &&
        (propertyIds.filter (fun pid =>
          (getUserTaskPermissions db userId pid).canView)).contains t.propertyId)) ∧
    (∀ t : Task,
      t ∈ db.tasks.filter (fun t =>
        (t.status == .pending && t.dueDate.toEpochDays < now.toEpochDays) &&
        (propertyIds.filter (fun pid =>
          (getUserTaskPermissions db userId pid).canView)).contains t.propertyId) ↔
      (t ∈ db.tasks ∧ t.propertyId ∈ propertyIds ∧
        (getUserTaskPermissions db userId t.propertyId).canView = true ∧
        t.status = .pending ∧ t.dueDate.toEpochDays < now.toEpochDays)) := by
  constructor
  · simp only [getOverdueTasks]
    split
    · rename_i h
      rw [List.isEmpty_iff] at h
      subst h
      simp
    · split
      · rename_i h2
        rw [List.isEmpty_iff] at h2
        rw [h2]
        simp
      · rw [List.filter_filter]
  · intro t
    rw [List.mem_filter]
    simp only [Bool.and_eq_true, beq_iff_eq, decide_eq_true_eq]
    rw [show (propertyIds.filter (fun pid =>
        (getUserTaskPermissions db userId pid).canView)).contains t.propertyId =
      (propertyIds.filter (fun pid =>
        (getUserTaskPermissions db userId pid).canView)).elem t.propertyId from rfl]
    rw [show ((propertyIds.filter (fun pid =>
        (getUserTaskPermissions db userId pid).canView)).elem t.propertyId = true) =
      (t.propertyId ∈ propertyIds.filter (fun pid =>
        (getUserTaskPermissions db userId pid).canView)) from propext List.elem_iff]
    rw [List.mem_filter]
    tauto

/-- C8 counterexample: two overdue pending tasks stored later-due first
come back in store order — the later-due task precedes the earlier-due
one, so the result is not sorted ascending by due date. -/
theorem overdue_not_sorted_counterexample :
    getOverdueTasks ["p1"] "alice" ⟨2024, 1, 10⟩ c8db = .ok [c8late, c8early] ∧
    c8early.dueDate.toEpochDays < c8late.dueDate.toEpochDays :=
  ⟨rfl, by decide⟩

/-- One lifecycle step preserves the weak `completedBy` discipline:
pending → no `completedBy`, completed → some `completedBy`; a skipped
task is unconstrained because `skipTask` leaves the field alone. -/
theorem taskInv_applyTaskOp (db : DB) (op : TaskOp × Timestamp) (h : TaskInv db) :
    TaskInv (applyTaskOp db op) := by
  obtain ⟨op, now⟩ := op
  cases op with
  | add input u =>
    simp only [applyTaskOp]
    cases haddr : addTask input u now db with
    | error e => exact h
    | ok pr =>
      simp only [addTask] at haddr
      split at haddr
      · cases haddr
      · split at haddr
        · cases haddr
        · split at haddr
          · cases haddr
          · cases haddr
            intro t ht
            rcases List.mem_append.mp ht with ht | ht
            · exact h t ht
            · rw [List.mem_singleton] at ht
              subst ht
              exact ⟨fun _ => rfl, fun hc => nomatch hc⟩
  | complete id u =>
    simp only [applyTaskOp]
    cases hres : completeTask id u now db with
    | error e => exact h
    | ok db2 =>
      simp only [completeTask, mutateTask] at hres
      split at hres
      · cases hres
      · cases hres
        intro t ht
        rcases List.mem_map.mp ht with ⟨s, hs, rfl⟩
        by_cases hid : (s.id == id) = true
        · rw [if_pos hid]
          exact ⟨fun hp => (nomatch hp), fun _ hnone => nomatch hnone⟩
        · rw [if_neg hid]
          exact h s hs
  | skip id u =>
    simp only [applyTaskOp]
    cases hres : skipTask id u now db with
    | error e => exact h
    | ok db2 =>
      simp only [skipTask, mutateTask] at hres
      split at hres
      · cases hres
      · cases hres
        intro t ht
        rcases List.mem_map.mp ht with ⟨s, hs, rfl⟩
        by_cases hid : (s.id == id) = true
        · rw [if_pos hid]
          exact ⟨fun hp => (nomatch hp), fun hc => nomatch hc⟩
        · rw [if_neg hid]
          exact h s hs
  | reopen id u =>
    simp only [applyTaskOp]
    cases hres : reopenTask id u now db with
    | error e => exact h
    | ok db2 =>
      simp only [reopenTask, mutateTask] at hres
      split at hres
      · cases hres
      · cases hres
        intro t ht
        rcases List.mem_map.mp ht with ⟨s, hs, rfl⟩
        by_cases hid : (s.id == id) = true
        · rw [if_pos hid]
          exact ⟨fun _ => rfl, fun hc => nomatch hc⟩
        · rw [if_neg hid]
          exact h s hs

/-- C4 (amended): along every sequence of `addTask`, `completeTask`,
`skipTask`, `reopenTask`, each reachable task satisfies: `completedBy`
is null when `status = pending` and non-null when `status = completed`.
The biconditional of the original claim fails only through `skipTask`,
which does not clear `completedBy`, so a skipped task may retain the
completer of an earlier completion. -/
theorem completed_by_discipline (ops : List (TaskOp × Timestamp)) (db : DB)
    (h : TaskInv db) : TaskInv (ops.foldl applyTaskOp db) := by
  induction ops generalizing db with
  | nil => exact h
  | cons op rest ih =>
    exact ih (applyTaskOp db op) (taskInv_applyTaskOp db op h)

/-- C4 witness: the discipline holds along a concrete complete-then-skip
run from the example store. -/
theorem completed_by_discipline_witness :
    TaskInv exDB ∧
    TaskInv ([((TaskOp.complete "t1" "alice"), 1), ((TaskOp.skip "t1" "alice"), 2)].foldl
      applyTaskOp exDB) :=
  ⟨by unfold TaskInv exDB exTask; decide,
    completed_by_discipline [((TaskOp.complete "t1" "alice"), 1),
      ((TaskOp.skip "t1" "alice"), 2)] exDB (by unfold TaskInv exDB exTask; decide)⟩

/-- C4 counterexample: completing task "t1" and then skipping it leaves
`status = skipped` with `completedBy = some "alice"`, so "completedBy is
non-null iff status = completed" is violated — `skipTask` does not clear
`completedBy`. -/
theorem completed_by_iff_counterexample :
    completeTask "t1" "alice" 1 exDB = .ok exDBdone ∧
    skipTask "t1" "alice" 2 exDBdone = .ok exDBskip ∧
    findTask exDBskip "t1" = some exTaskSkip ∧
    exTaskSkip.completedBy = some "alice" ∧
    exTaskSkip.status = .skipped ∧
    exTaskSkip.status ≠ .completed := by
  refine ⟨by rfl, by rfl, by rfl, rfl, rfl, by decide⟩

/-- In task permissions, `canEdit` is granted exactly to owner and
collaborator, both of whom also hold `canCreate` and `canView`. -/
theorem taskPermissions_edit_implies (db : DB) (u : UserId) (pid : PropertyId)
    (h : (getUserTaskPermissions db u pid).canEdit = true) :
    (getUserTaskPermissions db u pid).canCreate = true ∧
    (getUserTaskPermissions db u pid).canView = true := by
  cases hp : getPropertyById db pid with
  | none => simp [getUserTaskPermissions, hp] at h
  | some p =>
    by_cases ho : (p.ownerId == u) = true
    · simp [getUserTaskPermissions, hp, ho]
    · cases hf : p.sharedWith.find? (fun share => share.userId == u) with
      | none => simp [getUserTaskPermissions, hp, ho, hf] at h
      | some s =>
        cases hsr : s.role with
        | collaborator => simp [getUserTaskPermissions, hp, ho, hf, hsr]
        | viewer => simp [getUserTaskPermissions, hp, ho, hf, hsr] at h

/-- C2: for a stored task with recurrence `r` and an acting user with
edit permission on its property, `completeAndCreateNext` marks the
original completed (`completedBy` the acting user, original retained)
and appends exactly one successor task: same property, title,
recurrence, seasonal, geolocated and source, status pending, no
completer, and the recomputed due date. -/
theorem complete_and_create_next_round_trip
    (db : DB) (taskId : TaskId) (userId : UserId) (now : Timestamp)
    (t : Task) (r : TaskRecurrence) (nd : Date)
    (hfind : findTask db taskId = some t)
    (hrec : t.recurrence = some r)
    (hedit : (getUserTaskPermissions db userId t.propertyId).canEdit = true)
    (hclean : strTrim t.title = t.title)
    (htitle : t.title ≠ "")
    (hpid : t.propertyId ≠ "")
    (hin : t.dueDate.inRange = true)
    (hnext : computeNextDueDate t.dueDate r = .ok nd) :
    completeAndCreateNext taskId userId now db =
      .ok { db with
        tasks :=
          db.tasks.map (fun u =>
            if u.id == taskId then
              { u with status := .completed, completedBy := some userId, updatedAt := now }
            else u)
          ++ [{ id := genTaskId db.nextTaskId, propertyId := t.propertyId,
                title := t.title, description := strTrim t.description, dueDate := nd,
                status := .pending, completedBy := none, createdAt := now,
                updatedAt := now, recurrence := some r, seasonal := t.seasonal,
                geolocated := t.geolocated, source := t.source }],
        nextTaskId := db.nextTaskId + 1 } := by
  obtain ⟨hcreate, hview⟩ := taskPermissions_edit_implies db userId t.propertyId hedit
  have h1 : completeTask taskId userId now db =
      .ok { db with tasks := db.tasks.map (fun u =>
        if u.id == taskId then
          { u with status := .completed, completedBy := some userId, updatedAt := now }
        else u) } := by
    simp [completeTask, mutateTask, checkTaskAccess, hfind, hedit]
  have hfind1 : findTask
      ({ db with tasks := db.tasks.map (fun u =>
        if u.id == taskId then
          { u with status := .completed, completedBy := some userId, updatedAt := now }
        else u) } : DB) taskId =
      some { t with status := .completed, completedBy := some userId, updatedAt := now } := by
    show (db.tasks.map (fun u =>
        if u.id == taskId then
          { u with status := .completed, completedBy := some userId, updatedAt := now }
        else u)).find? (fun x => x.id == taskId) = _
    rw [find?_map_update db.tasks (fun x => x.id == taskId)
      (fun u => { u with status := .completed, completedBy := some userId, updatedAt := now })
      (fun a ha => ha)]
    rw [show findTask db taskId = db.tasks.find? (fun x => x.id == taskId) from rfl] at hfind
    rw [hfind]
    rfl
  have hperm1 : ∀ pid : PropertyId, getUserTaskPermissions
      ({ db with tasks := db.tasks.map (fun u =>
        if u.id == taskId then
          { u with status := .completed, completedBy := some userId, updatedAt := now }
        else u) } : DB) userId pid =
      getUserTaskPermissions db userId pid := fun _ => rfl
  have h2 : getTaskById taskId userId
      ({ db with tasks := db.tasks.map (fun u =>
        if u.id == taskId then
          { u with status := .completed, completedBy := some userId, updatedAt := now }
        else u) } : DB) =
      .ok (some { t with status := .completed, completedBy := some userId, updatedAt := now }) := by
    unfold getTaskById
    rw [hfind1]
    simp only [hperm1]
    simp [hview]
  simp only [completeAndCreateNext, h1, h2, createRecurringTask, hrec, Option.isSome_some,
    if_true, hperm1, hcreate, hin, hnext, addTask, hclean]
  simp [hclean, htitle, hpid, hcreate, hperm1]

/-- C2 witness: completing the monthly task due 2024-01-15 marks it
completed by "alice" and appends one pending successor due 2024-02-15
with the same property, title, recurrence and source. -/
theorem complete_and_create_next_round_trip_witness :
    completeAndCreateNext "t1" "alice" 7 exDB =
      .ok ⟨[exProperty],
        [⟨"t1", "p1", "Clean gutters", "", ⟨2024, 1, 15⟩, .completed, some "alice", 0, 7,
          some ⟨"monthly", 1⟩, false, false, "manual"⟩,
         ⟨"task_0", "p1", "Clean gutters", "", ⟨2024, 2, 15⟩, .pending, none, 7, 7,
          some ⟨"monthly", 1⟩, false, false, "manual"⟩],
        [], 1⟩ := by
  have h := complete_and_create_next_round_trip exDB "t1" "alice" 7 exTask
    ⟨"monthly", 1⟩ ⟨2024, 2, 15⟩ rfl rfl rfl rfl (by decide) (by decide)
    (by rfl) (by rfl)
  exact h.trans (by rfl)

end AllProperly
